import Mathlib

/-!
Shallow embedding of `src/dz4/dz4.py`: a two-stage toolchain for a small
fixed-width virtual machine.  The assembler (`assemble`) turns mnemonic
lines into packed 64-bit words plus trace records; the interpreter
(`interpret`) executes a word stream against a 1024-cell integer memory
and dumps an address range.

Python integers are modelled as `ℤ` (arguments, memory cells) and `ℕ`
(instruction words, which are always non-negative).  Python's `x & m`
for an all-ones mask `m = 2^w - 1` equals `x mod 2^w` with Python's
floored modulo, which is `Int.emod`; the encoder's masking is modelled
through that identity.  Python list indexing is modelled including its
negative-index wrap-around; an index out of `[-len, len)` is an
`IndexError`, modelled as `Except.error ()`.  Fatal Python exceptions
(`ValueError` from `int(...)` or unknown commands, unpacking errors,
`IndexError`) are all modelled as `Except.error ()` / `Option.none`.
-/

namespace Dz4

set_option maxRecDepth 100000

/-- Python `x & mask` for an all-ones bit mask: equals `x mod (mask+1)`
(Python's `%` is floored modulo, i.e. `Int.emod`), yielding a natural
number. -/
def maskV (x : ℤ) (mask : ℕ) : ℕ := (x % ((mask : ℤ) + 1)).toNat

/-- Encode one parsed source line, mirroring the dispatch in
`assemble` (dz4.py lines 21-42).  `LOAD_CONST`: `A=5`,
`((A & 0x7) << 61) | ((B & 0xFFFFF) << 41) | (C & 0x7FFFFFFFFFF)`;
`READ_MEM`: `A=6`, adds `((C & 0xFFFFF) << 21) | (D & 0x7FFF)`;
`WRITE_MEM` (`A=1`) and `ABS` (`A=0`) place `C & 0xFFFFF` unshifted.
A wrong argument count (Python unpack `ValueError`) or an unknown
command (explicit `raise ValueError`) is `Except.error ()`. -/
def encodeInstr (command : String) (args : List ℤ) : Except Unit ℕ :=
  if command = "LOAD_CONST" then
    match args with
    | [b, c] => .ok ((((5 : ℕ) &&& 0x7) <<< 61) ||| ((maskV b 0xFFFFF) <<< 41) ||| (maskV c 0x7FFFFFFFFFF))
    | _ => .error ()
  else if command = "READ_MEM" then
    match args with
    | [b, c, d] => .ok ((((6 : ℕ) &&& 0x7) <<< 61) ||| ((maskV b 0xFFFFF) <<< 41) ||| ((maskV c 0xFFFFF) <<< 21) ||| (maskV d 0x7FFF))
    | _ => .error ()
  else if command = "WRITE_MEM" then
    match args with
    | [b, c] => .ok ((((1 : ℕ) &&& 0x7) <<< 61) ||| ((maskV b 0xFFFFF) <<< 41) ||| (maskV c 0xFFFFF))
    | _ => .error ()
  else if command = "ABS" then
    match args with
    | [b, c] => .ok ((((0 : ℕ) &&& 0x7) <<< 61) ||| ((maskV b 0xFFFFF) <<< 41) ||| (maskV c 0xFFFFF))
    | _ => .error ()
  else .error ()

/-- Python whitespace, the class honoured by `str.strip()`, `str.split()`
(no arguments) and `str.isspace()`: the ASCII control whitespace
U+0009-U+000D, the information separators U+001C-U+001F, the space
U+0020, NEL U+0085, and the Unicode line/paragraph/space separators
(U+00A0, U+1680, U+2000-U+200A, U+2028, U+2029, U+202F, U+205F,
U+3000). -/
def pyIsSpace (c : Char) : Bool :=
  let n := c.toNat
  decide ((9 ≤ n ∧ n ≤ 13) ∨ (28 ≤ n ∧ n ≤ 32) ∨ n = 0x85 ∨ n = 0xA0 ∨ n = 0x1680 ∨
    (0x2000 ≤ n ∧ n ≤ 0x200A) ∨ n = 0x2028 ∨ n = 0x2029 ∨ n = 0x202F ∨ n = 0x205F ∨
    n = 0x3000)

/-- Python `line.strip().split()`: split on runs of Python whitespace,
dropping empty tokens (which also makes the leading `strip()`
redundant).  Accumulator holds the current token reversed. -/
def splitWsAux : List Char → List Char → List String
  | [], acc => if acc = [] then [] else [String.mk acc.reverse]
  | ch :: cs, acc =>
    if pyIsSpace ch then
      if acc = [] then splitWsAux cs []
      else String.mk acc.reverse :: splitWsAux cs []
    else splitWsAux cs (ch :: acc)

def tokens (line : String) : List String := splitWsAux line.data []

/-- First code points of the 66 runs of ten consecutive Unicode decimal
digits (general category Nd, Unicode 14.0 — the table of CPython 3.11;
`int()` accepts every Nd digit, not only ASCII, with the digit value
given by the offset into its run.  Later Unicode versions add two more
runs, Kawi U+11F50 and Nag Mundari U+1E4F0, which a CPython built
against them would also accept.  The contiguous mathematical block
U+1D7CE-U+1D7FF is listed as its five value-aligned runs of ten.) -/
def ndRangeStarts : List ℕ :=
  [0x30, 0x660, 0x6F0, 0x7C0, 0x966, 0x9E6, 0xA66, 0xAE6, 0xB66, 0xBE6,
   0xC66, 0xCE6, 0xD66, 0xDE6, 0xE50, 0xED0, 0xF20, 0x1040, 0x1090, 0x17E0,
   0x1810, 0x1946, 0x19D0, 0x1A80, 0x1A90, 0x1B50, 0x1BB0, 0x1C40, 0x1C50,
   0xA620, 0xA8D0, 0xA900, 0xA9D0, 0xA9F0, 0xAA50, 0xABF0, 0xFF10,
   0x104A0, 0x10D30, 0x11066, 0x110F0, 0x11136, 0x111D0, 0x112F0, 0x11450,
   0x114D0, 0x11650, 0x116C0, 0x11730, 0x118E0, 0x11950, 0x11C50, 0x11D50,
   0x11DA0, 0x16A60, 0x16AC0, 0x16B50,
   0x1D7CE, 0x1D7D8, 0x1D7E2, 0x1D7EC, 0x1D7F6,
   0x1E140, 0x1E2F0, 0x1E950, 0x1FBF0]

/-- The decimal value of a Unicode decimal digit (category Nd), `none`
for every other character. -/
def decDigit (c : Char) : Option ℕ :=
  (ndRangeStarts.find? (fun s => s ≤ c.toNat && c.toNat ≤ s + 9)).map (fun s => c.toNat - s)

/-- The digit part of `int(token)` after its first digit: further
digits, with a single underscore permitted between two digits
(PEP 515: `1_0` parses, `_1`, `1_` and `1__0` raise `ValueError`). -/
def parseDigits : List Char → ℕ → Option ℕ
  | [], acc => some acc
  | c :: cs, acc =>
    match decDigit c with
    | some d => parseDigits cs (acc * 10 + d)
    | none =>
      if c = Char.ofNat 95 then
        match cs with
        | [] => none
        | c2 :: cs2 =>
          match decDigit c2 with
          | some d2 => parseDigits cs2 (acc * 10 + d2)
          | none => none
      else none

/-- Python `int(token)` in base 10: an optional ASCII sign, then a
digit string starting with a Unicode decimal digit, with single
underscores permitted between digits.  (Surrounding whitespace, which
`int()` would also strip, cannot survive tokenisation.)  `none` models
the fatal `ValueError`. -/
def parseIntToken (s : String) : Option ℤ :=
  match s.data with
  | [] => none
  | c :: cs =>
    if c = Char.ofNat 43 then
      match cs with
      | [] => none
      | c2 :: cs2 =>
        match decDigit c2 with
        | some d => (parseDigits cs2 d).map (fun n => (n : ℤ))
        | none => none
    else if c = Char.ofNat 45 then
      match cs with
      | [] => none
      | c2 :: cs2 =>
        match decDigit c2 with
        | some d => (parseDigits cs2 d).map (fun n => -(n : ℤ))
        | none => none
    else
      match decDigit c with
      | some d => (parseDigits cs d).map (fun n => (n : ℤ))
      | none => none

/-- Python `list(map(int, parts[1:]))`: fails if any token fails. -/
def parseArgs : List String → Option (List ℤ)
  | [] => some []
  | t :: ts =>
    match parseIntToken t with
    | none => none
    | some v =>
      match parseArgs ts with
      | none => none
      | some vs => some (v :: vs)

/-- Uppercase hex digit. -/
def hexDigit (n : ℕ) : Char :=
  if n < 10 then Char.ofNat (48 + n) else Char.ofNat (65 + (n - 10))

/-- Python `f"{instruction:016X}"` for a word below `2^64` (every encoded
word is): sixteen uppercase hex digits, zero-padded. -/
def hex16 (n : ℕ) : String :=
  String.mk ((List.range 16).map (fun k => hexDigit ((n >>> (4 * (15 - k))) &&& 0xF)))

/-- One trace record: command, argument list, 16-digit hex rendering. -/
def TraceRec : Type := String × List ℤ × String

/-- The per-line body of the `assemble` loop:
`parts = line.strip().split()`, `command = parts[0]` (an `IndexError`
on a blank line), `args = list(map(int, parts[1:]))`, then the dispatch,
producing the word together with its trace record. -/
def encodeLine (line : String) : Except Unit (ℕ × TraceRec) :=
  match tokens line with
  | [] => .error ()
  | cmd :: rest =>
    match parseArgs rest with
    | none => .error ()
    | some args =>
      match encodeInstr cmd args with
      | .error e => .error e
      | .ok w => .ok (w, (cmd, args, hex16 w))

/-- The `assemble` loop over all source lines: any fatal error aborts
the whole run. -/
def encodeLines : List String → Except Unit (List (ℕ × TraceRec))
  | [] => .ok []
  | l :: ls =>
    match encodeLine l with
    | .error e => .error e
    | .ok item =>
      match encodeLines ls with
      | .error e => .error e
      | .ok items => .ok (item :: items)

/-- Pure core of `assemble` (dz4.py lines 6-54): the binary word stream
and the trace records.  In the source both output files are written only
after the loop over all lines has completed, so an error yields neither
output; `Except.error ()` models that no file is produced. -/
def assemble (lines : List String) : Except Unit (List ℕ × List TraceRec) :=
  match encodeLines lines with
  | .error e => .error e
  | .ok items => .ok (items.map Prod.fst, items.map Prod.snd)

/-- Decoded opcode `A = (instruction >> 61) & 0x7` (dz4.py line 67). -/
def decA (w : ℕ) : ℕ := (w >>> 61) &&& 0x7

/-- Decoded field `B = (instruction >> 41) & 0xFFFFF` (line 68). -/
def decB (w : ℕ) : ℕ := (w >>> 41) &&& 0xFFFFF

/-- Decoded field `C = (instruction >> 21) & 0xFFFFF` (line 69). -/
def decC (w : ℕ) : ℕ := (w >>> 21) &&& 0xFFFFF

/-- Decoded field `D = instruction & 0x7FFF` (line 70). -/
def decD (w : ℕ) : ℕ := w &&& 0x7FFF

/-- Resolve a Python list index: `0 ≤ i < len` is direct, `-len ≤ i < 0`
wraps to `len + i`, anything else is an `IndexError`. -/
def pyIdx (len : ℕ) (i : ℤ) : Option ℕ :=
  if 0 ≤ i ∧ i < (len : ℤ) then some i.toNat
  else if -(len : ℤ) ≤ i ∧ i < 0 then some (i + (len : ℤ)).toNat
  else none

/-- Python `memory[i]` (read). -/
def pyGet (m : List ℤ) (i : ℤ) : Except Unit ℤ :=
  match pyIdx m.length i with
  | some j => .ok (m.getD j 0)
  | none => .error ()

/-- Python `memory[i] = v`. -/
def pySet (m : List ℤ) (i v : ℤ) : Except Unit (List ℤ) :=
  match pyIdx m.length i with
  | some j => .ok (m.set j v)
  | none => .error ()

/-- Execute one decoded instruction word against the memory, mirroring
the dispatch in `interpret` (dz4.py lines 67-79) including Python's
evaluation order (right-hand side before the assignment target):
`A=5`: `memory[B] = C`; `A=6`: `memory[B] = memory[memory[C] + D]`;
`A=1`: `memory[memory[B]] = memory[memory[C]]`;
`A=0`: `memory[memory[B]] = abs(memory[memory[C]])`;
any other opcode is a silent no-op. -/
def step (w : ℕ) (m : List ℤ) : Except Unit (List ℤ) :=
  if decA w = 5 then
    pySet m (decB w : ℤ) (decC w : ℤ)
  else if decA w = 6 then
    match pyGet m (decC w : ℤ) with
    | .error e => .error e
    | .ok base =>
      match pyGet m (base + (decD w : ℤ)) with
      | .error e => .error e
      | .ok v => pySet m (decB w : ℤ) v
  else if decA w = 1 then
    match pyGet m (decC w : ℤ) with
    | .error e => .error e
    | .ok p =>
      match pyGet m p with
      | .error e => .error e
      | .ok v =>
        match pyGet m (decB w : ℤ) with
        | .error e => .error e
        | .ok q => pySet m q v
  else if decA w = 0 then
    match pyGet m (decC w : ℤ) with
    | .error e => .error e
    | .ok p =>
      match pyGet m p with
      | .error e => .error e
      | .ok v =>
        match pyGet m (decB w : ℤ) with
        | .error e => .error e
        | .ok q => pySet m q |v|
  else .ok m

/-- The interpreter's fresh memory: `memory = [0] * 1024`. -/
def initMemory : List ℤ := List.replicate 1024 0

/-- The `interpret` execution loop: words in stream order, first fatal
error aborts the run. -/
def execAll : List ℕ → List ℤ → Except Unit (List ℤ)
  | [], m => .ok m
  | w :: ws, m =>
    match step w m with
    | .error e => .error e
    | .ok m' => execAll ws m'

/-- The dump of `memory[lo:hi]` as (address, value) pairs,
`enumerate(memory_dump, start=lo)` (dz4.py lines 81-86), for a
non-negative range. -/
def memoryDump (m : List ℤ) (lo hi : ℕ) : List (ℕ × ℤ) :=
  (((m.drop lo).take (hi - lo)).enum).map (fun p => (lo + p.1, p.2))

/-- Pure core of `interpret` (dz4.py lines 57-86): execute the word
stream on a fresh zeroed 1024-cell memory, then dump `[lo, hi)`. -/
def interpret (ws : List ℕ) (lo hi : ℕ) : Except Unit (List (ℕ × ℤ)) :=
  match execAll ws initMemory with
  | .error e => .error e
  | .ok m => .ok (memoryDump m lo hi)

/-- End-to-end pipeline: assemble source lines, then interpret the
resulting word stream (the binary file is the identity channel between
the two stages: each word is below `2^64` and the 8-byte big-endian
round trip is exact). -/
def assembleThenDump (src : List String) (lo hi : ℕ) : Except Unit (List (ℕ × ℤ)) :=
  match assemble src with
  | .error e => .error e
  | .ok (ws, _) => interpret ws lo hi

/-- The memory indices an instruction uses, in Python evaluation order
(for the double-indirect opcodes the derived indices are read through
`getD`, matching `pyGet` on an in-range cell). -/
def stepIndices (w : ℕ) (m : List ℤ) : List ℤ :=
  if decA w = 5 then [(decB w : ℤ)]
  else if decA w = 6 then
    [(decC w : ℤ), m.getD (decC w) 0 + (decD w : ℤ), (decB w : ℤ)]
  else if decA w = 1 then
    [(decC w : ℤ), m.getD (decC w) 0, (decB w : ℤ), m.getD (decB w) 0]
  else if decA w = 0 then
    [(decC w : ℤ), m.getD (decC w) 0, (decB w : ℤ), m.getD (decB w) 0]
  else []

/-- A malformed source line in the sense of the input-format error
taxonomy: an unknown mnemonic, a non-integer argument token, or a wrong
argument count for a known mnemonic.  (A blank line is a separate
failure mode — `parts[0]` raises `IndexError` — and is not covered by
this predicate.) -/
def lineBad (line : String) : Bool :=
  match tokens line with
  | [] => false
  | cmd :: rest =>
    decide (cmd ∉ (["LOAD_CONST", "READ_MEM", "WRITE_MEM", "ABS"] : List String) ∨
      (∃ t ∈ rest, parseIntToken t = none) ∨
      (cmd = "LOAD_CONST" ∧ rest.length ≠ 2) ∨
      (cmd = "READ_MEM" ∧ rest.length ≠ 3) ∨
      (cmd = "WRITE_MEM" ∧ rest.length ≠ 2) ∨
      (cmd = "ABS" ∧ rest.length ≠ 2))

/-! ### Arithmetic and bit-level helper lemmas -/

theorem maskV_lt (x : ℤ) (mask : ℕ) : maskV x mask < mask + 1 := by
  unfold maskV
  have h0 : ((mask : ℤ) + 1) ≠ 0 := by positivity
  have h1 := Int.emod_nonneg x h0
  have h2 := Int.emod_lt_of_pos x (b := (mask : ℤ) + 1) (by positivity)
  omega

theorem maskV20_lt (x : ℤ) : maskV x 0xFFFFF < 2 ^ 20 := by
  have := maskV_lt x 0xFFFFF; omega

theorem maskV43_lt (x : ℤ) : maskV x 0x7FFFFFFFFFF < 2 ^ 43 := by
  have := maskV_lt x 0x7FFFFFFFFFF; omega

theorem maskV15_lt (x : ℤ) : maskV x 0x7FFF < 2 ^ 15 := by
  have := maskV_lt x 0x7FFF; omega

/-- The value of a masked field: Python `x & (2^w - 1)` is `x mod 2^w`. -/
theorem maskV_eq_of_lt (x : ℤ) (mask : ℕ) (h0 : 0 ≤ x) (h1 : x < (mask : ℤ) + 1) :
    (maskV x mask : ℤ) = x := by
  unfold maskV
  rw [Int.emod_eq_of_lt h0 h1, Int.toNat_of_nonneg h0]

/-- Disjoint bit ranges: OR of a shifted value with a value below the
shift is addition. -/
theorem lor_split (i a b : ℕ) (hb : b < 2 ^ i) : (2 ^ i * a) ||| b = 2 ^ i * a + b := by
  have hmul : 2 ^ i * a = a <<< i := by rw [Nat.shiftLeft_eq]; ring
  apply Nat.eq_of_testBit_eq
  intro j
  rw [Nat.testBit_lor, Nat.testBit_mul_pow_two_add a hb j, hmul, Nat.testBit_shiftLeft]
  by_cases hj : j < i
  · simp [hj, Nat.not_le.mpr hj]
  · have hb2 : b.testBit j = false :=
      Nat.testBit_lt_two_pow (lt_of_lt_of_le hb (Nat.pow_le_pow_right (by norm_num) (Nat.le_of_not_lt hj)))
    simp [hj, Nat.not_lt.mp hj, hb2]

theorem lor_mul_two_pow (k a b : ℕ) : (2 ^ k * a) ||| (2 ^ k * b) = 2 ^ k * (a ||| b) := by
  have h1 : 2 ^ k * a = a <<< k := by rw [Nat.shiftLeft_eq]; ring
  have h2 : 2 ^ k * b = b <<< k := by rw [Nat.shiftLeft_eq]; ring
  have h3 : 2 ^ k * (a ||| b) = (a ||| b) <<< k := by rw [Nat.shiftLeft_eq]; ring
  apply Nat.eq_of_testBit_eq
  intro j
  rw [h1, h2, h3, Nat.testBit_lor, Nat.testBit_shiftLeft, Nat.testBit_shiftLeft,
    Nat.testBit_shiftLeft, Nat.testBit_lor]
  exact (Bool.and_or_distrib_left _ _ _).symm

theorem lor_lt (x y n : ℕ) (hx : x < 2 ^ n) (hy : y < 2 ^ n) : x ||| y < 2 ^ n :=
  Nat.bitwise_lt_two_pow hx hy

/-- The uniform decode of a word presented as `a·2^61 + v·2^41 + r`:
`A` is the top field, `B` the next 20 bits, `C` bits 40-21 of `r`, and
`D` the low 15 bits of `r`. -/
theorem dec_fields (w a v r : ℕ) (hw : w = a * 2 ^ 61 + v * 2 ^ 41 + r)
    (ha : a < 8) (hv : v < 2 ^ 20) (hr : r < 2 ^ 41) :
    decA w = a ∧ decB w = v ∧ decC w = r / 2 ^ 21 ∧ decD w = r % 2 ^ 15 := by
  unfold decA decB decC decD
  rw [Nat.shiftRight_eq_div_pow, Nat.shiftRight_eq_div_pow, Nat.shiftRight_eq_div_pow,
    show (0x7 : ℕ) = 2 ^ 3 - 1 by norm_num, show (0xFFFFF : ℕ) = 2 ^ 20 - 1 by norm_num,
    show (0x7FFF : ℕ) = 2 ^ 15 - 1 by norm_num,
    Nat.and_pow_two_sub_one_eq_mod, Nat.and_pow_two_sub_one_eq_mod,
    Nat.and_pow_two_sub_one_eq_mod, Nat.and_pow_two_sub_one_eq_mod]
  refine ⟨by omega, by omega, by omega, by omega⟩

/-! ### Per-opcode structure of the encoded word -/

theorem encWRITE_decomp (b c : ℤ) (w : ℕ) (h : encodeInstr "WRITE_MEM" [b, c] = .ok w) :
    w = 1 * 2 ^ 61 + maskV b 0xFFFFF * 2 ^ 41 + maskV c 0xFFFFF := by
  have hB := maskV20_lt b
  have hC := maskV20_lt c
  replace h : Except.ok ((((1 : ℕ) &&& 0x7) <<< 61) ||| ((maskV b 0xFFFFF) <<< 41) ||| (maskV c 0xFFFFF)) = Except.ok w := h
  injection h with h
  rw [← h, show (((1 : ℕ) &&& 0x7) <<< 61) = 2 ^ 61 * 1 by rfl, Nat.shiftLeft_eq,
    lor_split 61 1 (maskV b 0xFFFFF * 2 ^ 41) (by omega),
    show 2 ^ 61 * 1 + maskV b 0xFFFFF * 2 ^ 41 = 2 ^ 41 * (2 ^ 20 + maskV b 0xFFFFF) by omega,
    lor_split 41 _ _ (by omega)]
  omega

theorem encABS_decomp (b c : ℤ) (w : ℕ) (h : encodeInstr "ABS" [b, c] = .ok w) :
    w = 0 * 2 ^ 61 + maskV b 0xFFFFF * 2 ^ 41 + maskV c 0xFFFFF := by
  have hB := maskV20_lt b
  have hC := maskV20_lt c
  replace h : Except.ok ((((0 : ℕ) &&& 0x7) <<< 61) ||| ((maskV b 0xFFFFF) <<< 41) ||| (maskV c 0xFFFFF)) = Except.ok w := h
  injection h with h
  rw [← h, show (((0 : ℕ) &&& 0x7) <<< 61) = 2 ^ 61 * 0 by rfl, Nat.shiftLeft_eq,
    lor_split 61 0 (maskV b 0xFFFFF * 2 ^ 41) (by omega),
    show 2 ^ 61 * 0 + maskV b 0xFFFFF * 2 ^ 41 = 2 ^ 41 * (0 + maskV b 0xFFFFF) by omega,
    lor_split 41 _ _ (by omega)]
  omega

theorem encREAD_decomp (b c d : ℤ) (w : ℕ) (h : encodeInstr "READ_MEM" [b, c, d] = .ok w) :
    w = 6 * 2 ^ 61 + maskV b 0xFFFFF * 2 ^ 41 + (maskV c 0xFFFFF * 2 ^ 21 + maskV d 0x7FFF) := by
  have hB := maskV20_lt b
  have hC := maskV20_lt c
  have hD := maskV15_lt d
  replace h : Except.ok ((((6 : ℕ) &&& 0x7) <<< 61) ||| ((maskV b 0xFFFFF) <<< 41) ||| ((maskV c 0xFFFFF) <<< 21) ||| (maskV d 0x7FFF)) = Except.ok w := h
  injection h with h
  rw [← h, show (((6 : ℕ) &&& 0x7) <<< 61) = 2 ^ 61 * 6 by rfl, Nat.shiftLeft_eq, Nat.shiftLeft_eq,
    lor_split 61 6 (maskV b 0xFFFFF * 2 ^ 41) (by omega),
    show 2 ^ 61 * 6 + maskV b 0xFFFFF * 2 ^ 41 = 2 ^ 41 * (2 ^ 20 * 6 + maskV b 0xFFFFF) by omega,
    lor_split 41 _ _ (by omega),
    show 2 ^ 41 * (2 ^ 20 * 6 + maskV b 0xFFFFF) + maskV c 0xFFFFF * 2 ^ 21 = 2 ^ 21 * (2 ^ 20 * (2 ^ 20 * 6 + maskV b 0xFFFFF) + maskV c 0xFFFFF) by ring,
    lor_split 21 _ _ (by omega)]
  ring

/-- The LOAD_CONST word: the 43-bit constant field overlaps the two low
bits of `B`, so the decoded `B` field is `B ||| (C >> 41)`. -/
theorem encLC_decomp (b c : ℤ) (w : ℕ) (h : encodeInstr "LOAD_CONST" [b, c] = .ok w) :
    w = 5 * 2 ^ 61 + (maskV b 0xFFFFF ||| maskV c 0x7FFFFFFFFFF / 2 ^ 41) * 2 ^ 41 + maskV c 0x7FFFFFFFFFF % 2 ^ 41 := by
  have hB := maskV20_lt b
  have hC := maskV43_lt c
  set B := maskV b 0xFFFFF with hBdef
  set C := maskV c 0x7FFFFFFFFFF with hCdef
  have hq : C / 2 ^ 41 < 2 ^ 20 := by omega
  have hr : C % 2 ^ 41 < 2 ^ 41 := by omega
  replace h : Except.ok ((((5 : ℕ) &&& 0x7) <<< 61) ||| (B <<< 41) ||| C) = Except.ok w := h
  injection h with h
  have hCsplit : C = (2 ^ 41 * (C / 2 ^ 41)) ||| (C % 2 ^ 41) := by
    rw [lor_split 41 _ _ hr]; omega
  have key : (((5 : ℕ) &&& 0x7) <<< 61) ||| (B <<< 41) ||| C = 5 * 2 ^ 61 + (B ||| C / 2 ^ 41) * 2 ^ 41 + C % 2 ^ 41 := by
    conv_lhs => rw [hCsplit]
    rw [show (((5 : ℕ) &&& 0x7) <<< 61) = 2 ^ 61 * 5 by rfl, Nat.shiftLeft_eq,
      lor_split 61 5 (B * 2 ^ 41) (by omega),
      show 2 ^ 61 * 5 + B * 2 ^ 41 = 2 ^ 41 * (2 ^ 20 * 5 + B) by ring,
      ← Nat.lor_assoc, lor_mul_two_pow,
      lor_split 41 _ _ hr,
      show 2 ^ 20 * 5 + B = (2 ^ 20 * 5) ||| B by rw [lor_split 20 5 B hB],
      Nat.lor_assoc,
      lor_split 20 5 _ (lor_lt _ _ _ hB (by omega))]
    ring
  rw [← h, key]

/-! ### Python list access lemmas -/

theorem pyIdx_some (len : ℕ) (i : ℤ) (h0 : 0 ≤ i) (h1 : i < (len : ℤ)) :
    pyIdx len i = some i.toNat := by
  unfold pyIdx
  rw [if_pos ⟨h0, h1⟩]

theorem pyIdx_none (len : ℕ) (i : ℤ) (h : (len : ℤ) ≤ i) : pyIdx len i = none := by
  unfold pyIdx
  rw [if_neg (by omega), if_neg (by omega)]

theorem pyGet_ok (m : List ℤ) (i : ℤ) (h0 : 0 ≤ i) (h1 : i < (m.length : ℤ)) :
    pyGet m i = .ok (m.getD i.toNat 0) := by
  unfold pyGet
  rw [pyIdx_some _ _ h0 h1]

theorem pyGet_err (m : List ℤ) (i : ℤ) (h : (m.length : ℤ) ≤ i) : pyGet m i = .error () := by
  unfold pyGet
  rw [pyIdx_none _ _ h]

theorem pySet_ok (m : List ℤ) (i v : ℤ) (h0 : 0 ≤ i) (h1 : i < (m.length : ℤ)) :
    pySet m i v = .ok (m.set i.toNat v) := by
  unfold pySet
  rw [pyIdx_some _ _ h0 h1]

theorem pySet_err (m : List ℤ) (i v : ℤ) (h : (m.length : ℤ) ≤ i) : pySet m i v = .error () := by
  unfold pySet
  rw [pyIdx_none _ _ h]

theorem pySet_ok_inv (m : List ℤ) (i v : ℤ) (m' : List ℤ) (h : pySet m i v = .ok m') :
    ∃ j, m' = m.set j v := by
  unfold pySet at h
  cases hidx : pyIdx m.length i with
  | none => rw [hidx] at h; exact absurd h (by simp)
  | some j => rw [hidx] at h; injection h with h; exact ⟨j, h.symm⟩

theorem getD_nonneg (m : List ℤ) (hm : ∀ x ∈ m, 0 ≤ x) (j : ℕ) : 0 ≤ m.getD j 0 := by
  by_cases hj : j < m.length
  · rw [List.getD_eq_getElem _ _ hj]
    exact hm _ (List.getElem_mem hj)
  · rw [List.getD_eq_default _ _ (Nat.le_of_not_lt hj)]

theorem pyGet_nonneg (m : List ℤ) (i v : ℤ) (hm : ∀ x ∈ m, 0 ≤ x)
    (h : pyGet m i = .ok v) : 0 ≤ v := by
  unfold pyGet at h
  cases hidx : pyIdx m.length i with
  | none => rw [hidx] at h; exact absurd h (by simp)
  | some j => rw [hidx] at h; injection h with h; rw [← h]; exact getD_nonneg m hm j

theorem set_nonneg (m : List ℤ) (j : ℕ) (v : ℤ) (hm : ∀ x ∈ m, 0 ≤ x) (hv : 0 ≤ v) :
    ∀ x ∈ m.set j v, 0 ≤ x := by
  intro x hx
  rcases List.mem_or_eq_of_mem_set hx with h | h
  · exact hm x h
  · rw [h]; exact hv

/-! ### Execution invariants -/

/-- Every value an instruction can store is non-negative, so one step
preserves non-negativity of all cells (and the memory size). -/
theorem step_preserve (w : ℕ) (m m' : List ℤ) (hm : ∀ x ∈ m, 0 ≤ x)
    (h : step w m = .ok m') : m'.length = m.length ∧ ∀ x ∈ m', 0 ≤ x := by
  unfold step at h
  split at h
  · obtain ⟨j, rfl⟩ := pySet_ok_inv _ _ _ _ h
    exact ⟨List.length_set .., set_nonneg _ _ _ hm (by omega)⟩
  · split at h
    · cases hg1 : pyGet m (decC w : ℤ) with
      | error e => rw [hg1] at h; exact absurd h (by simp)
      | ok base =>
        rw [hg1] at h; dsimp only at h
        cases hg2 : pyGet m (base + (decD w : ℤ)) with
        | error e => rw [hg2] at h; exact absurd h (by simp)
        | ok v =>
          rw [hg2] at h; dsimp only at h
          obtain ⟨j, rfl⟩ := pySet_ok_inv _ _ _ _ h
          exact ⟨List.length_set .., set_nonneg _ _ _ hm (pyGet_nonneg _ _ _ hm hg2)⟩
    · split at h
      · cases hg1 : pyGet m (decC w : ℤ) with
        | error e => rw [hg1] at h; exact absurd h (by simp)
        | ok p =>
          rw [hg1] at h; dsimp only at h
          cases hg2 : pyGet m p with
          | error e => rw [hg2] at h; exact absurd h (by simp)
          | ok v =>
            rw [hg2] at h; dsimp only at h
            cases hg3 : pyGet m (decB w : ℤ) with
            | error e => rw [hg3] at h; exact absurd h (by simp)
            | ok q =>
              rw [hg3] at h; dsimp only at h
              obtain ⟨j, rfl⟩ := pySet_ok_inv _ _ _ _ h
              exact ⟨List.length_set .., set_nonneg _ _ _ hm (pyGet_nonneg _ _ _ hm hg2)⟩
      · split at h
        · cases hg1 : pyGet m (decC w : ℤ) with
          | error e => rw [hg1] at h; exact absurd h (by simp)
          | ok p =>
            rw [hg1] at h; dsimp only at h
            cases hg2 : pyGet m p with
            | error e => rw [hg2] at h; exact absurd h (by simp)
            | ok v =>
              rw [hg2] at h; dsimp only at h
              cases hg3 : pyGet m (decB w : ℤ) with
              | error e => rw [hg3] at h; exact absurd h (by simp)
              | ok q =>
                rw [hg3] at h; dsimp only at h
                obtain ⟨j, rfl⟩ := pySet_ok_inv _ _ _ _ h
                exact ⟨List.length_set .., set_nonneg _ _ _ hm (abs_nonneg v)⟩
        · injection h with h
          rw [← h]
          exact ⟨rfl, hm⟩

theorem execAll_inv (ws : List ℕ) (m m' : List ℤ) (hm : ∀ x ∈ m, 0 ≤ x)
    (h : execAll ws m = .ok m') : m'.length = m.length ∧ ∀ x ∈ m', 0 ≤ x := by
  induction ws generalizing m with
  | nil =>
    unfold execAll at h
    injection h with h
    rw [← h]
    exact ⟨rfl, hm⟩
  | cons w ws ih =>
    unfold execAll at h
    cases hs : step w m with
    | error e => rw [hs] at h; exact absurd h (by simp)
    | ok m1 =>
      rw [hs] at h; dsimp only at h
      obtain ⟨hl1, hp1⟩ := step_preserve w m m1 hm hs
      obtain ⟨hl2, hp2⟩ := ih m1 hp1 h
      exact ⟨hl2.trans hl1, hp2⟩

theorem initMemory_length : initMemory.length = 1024 := by
  unfold initMemory
  rw [List.length_replicate]

theorem initMemory_nonneg : ∀ x ∈ initMemory, 0 ≤ x := by
  intro x hx
  unfold initMemory at hx
  rw [List.eq_of_mem_replicate hx]

/-- A memory reached from the fresh zeroed memory without a fatal halt
has 1024 cells, all non-negative. -/
theorem reach_inv (ws : List ℕ) (m : List ℤ) (h : execAll ws initMemory = .ok m) :
    m.length = 1024 ∧ ∀ x ∈ m, 0 ≤ x := by
  obtain ⟨hl, hp⟩ := execAll_inv ws initMemory m initMemory_nonneg h
  exact ⟨hl.trans initMemory_length, hp⟩

theorem execAll_cons (w : ℕ) (ws : List ℕ) (m : List ℤ) :
    execAll (w :: ws) m =
      match step w m with
      | .error e => .error e
      | .ok m' => execAll ws m' := rfl

theorem execAll_append (ws1 ws2 : List ℕ) (m : List ℤ) :
    execAll (ws1 ++ ws2) m =
      match execAll ws1 m with
      | .error e => .error e
      | .ok m1 => execAll ws2 m1 := by
  induction ws1 generalizing m with
  | nil => rfl
  | cons w ws ih =>
    rw [List.cons_append, execAll_cons, execAll_cons]
    cases hs : step w m with
    | error e => rfl
    | ok m1 => dsimp only; exact ih m1

/-- Opcodes outside the dispatch table fall through every branch. -/
theorem step_noop (w : ℕ) (m : List ℤ) (h5 : decA w ≠ 5) (h6 : decA w ≠ 6)
    (h1 : decA w ≠ 1) (h0 : decA w ≠ 0) : step w m = .ok m := by
  unfold step
  rw [if_neg h5, if_neg h6, if_neg h1, if_neg h0]

/-- On a memory with 1024 non-negative cells, an instruction one of
whose computed indices falls outside `[0, 1024)` raises `IndexError`:
all computed indices are non-negative, so the negative-wrap branch of
Python indexing can never silently absorb the access. -/
theorem step_err_of_bad_index (w : ℕ) (m : List ℤ) (hlen : m.length = 1024)
    (hm : ∀ x ∈ m, 0 ≤ x) (i : ℤ) (hi : i ∈ stepIndices w m)
    (hout : ¬(0 ≤ i ∧ i < 1024)) : step w m = .error () := by
  unfold stepIndices at hi
  unfold step
  by_cases h5 : decA w = 5
  · rw [if_pos h5] at hi
    rw [if_pos h5]
    simp only [List.mem_singleton] at hi
    subst hi
    exact pySet_err _ _ _ (by omega)
  · rw [if_neg h5] at hi
    rw [if_neg h5]
    by_cases h6 : decA w = 6
    · rw [if_pos h6] at hi
      rw [if_pos h6]
      simp only [List.mem_cons, List.not_mem_nil, or_false] at hi
      have hC0 := getD_nonneg m hm (decC w)
      by_cases hC : decC w < 1024
      · rw [pyGet_ok m _ (by omega) (by omega)]
        dsimp only
        rw [Int.toNat_natCast]
        by_cases hBD : m.getD (decC w) 0 + (decD w : ℤ) < 1024
        · rw [pyGet_ok m _ (by omega) (by omega)]
          dsimp only
          refine pySet_err _ _ _ ?_
          rcases hi with rfl | rfl | rfl <;> omega
        · rw [pyGet_err m _ (by omega)]
      · rw [pyGet_err m _ (by omega)]
    · rw [if_neg h6] at hi
      rw [if_neg h6]
      by_cases h1 : decA w = 1
      · rw [if_pos h1] at hi
        rw [if_pos h1]
        simp only [List.mem_cons, List.not_mem_nil, or_false] at hi
        have hC0 := getD_nonneg m hm (decC w)
        have hB0 := getD_nonneg m hm (decB w)
        by_cases hC : decC w < 1024
        · rw [pyGet_ok m _ (by omega) (by omega)]
          dsimp only
          rw [Int.toNat_natCast]
          by_cases hp : m.getD (decC w) 0 < 1024
          · rw [pyGet_ok m _ hC0 (by omega)]
            dsimp only
            by_cases hB : decB w < 1024
            · rw [pyGet_ok m _ (by omega) (by omega)]
              dsimp only
              rw [Int.toNat_natCast]
              refine pySet_err _ _ _ ?_
              rcases hi with rfl | rfl | rfl | rfl <;> omega
            · rw [pyGet_err m _ (by omega)]
          · rw [pyGet_err m _ (by omega)]
        · rw [pyGet_err m _ (by omega)]
      · rw [if_neg h1] at hi
        rw [if_neg h1]
        by_cases h0 : decA w = 0
        · rw [if_pos h0] at hi
          rw [if_pos h0]
          simp only [List.mem_cons, List.not_mem_nil, or_false] at hi
          have hC0 := getD_nonneg m hm (decC w)
          have hB0 := getD_nonneg m hm (decB w)
          by_cases hC : decC w < 1024
          · rw [pyGet_ok m _ (by omega) (by omega)]
            dsimp only
            rw [Int.toNat_natCast]
            by_cases hp : m.getD (decC w) 0 < 1024
            · rw [pyGet_ok m _ hC0 (by omega)]
              dsimp only
              by_cases hB : decB w < 1024
              · rw [pyGet_ok m _ (by omega) (by omega)]
                dsimp only
                rw [Int.toNat_natCast]
                refine pySet_err _ _ _ ?_
                rcases hi with rfl | rfl | rfl | rfl <;> omega
              · rw [pyGet_err m _ (by omega)]
            · rw [pyGet_err m _ (by omega)]
          · rw [pyGet_err m _ (by omega)]
        · rw [if_neg h0] at hi
          exact absurd hi (List.not_mem_nil i)

/-- On an all-non-negative memory, `abs` is the identity on the stored
value, so an ABS step coincides with a WRITE_MEM step that decodes to
the same `B` and `C` fields. -/
theorem step_abs_eq_write (w0 w1 : ℕ) (m : List ℤ) (hm : ∀ x ∈ m, 0 ≤ x)
    (h0 : decA w0 = 0) (h1 : decA w1 = 1) (hB : decB w0 = decB w1) (hC : decC w0 = decC w1) :
    step w0 m = step w1 m := by
  have e0 : step w0 m =
      (match pyGet m (decC w0 : ℤ) with
        | .error e => .error e
        | .ok p =>
          match pyGet m p with
          | .error e => .error e
          | .ok v =>
            match pyGet m (decB w0 : ℤ) with
            | .error e => .error e
            | .ok q => pySet m q |v|) := by
    unfold step
    rw [if_neg (by omega), if_neg (by omega), if_neg (by omega), if_pos h0]
  have e1 : step w1 m =
      (match pyGet m (decC w1 : ℤ) with
        | .error e => .error e
        | .ok p =>
          match pyGet m p with
          | .error e => .error e
          | .ok v =>
            match pyGet m (decB w1 : ℤ) with
            | .error e => .error e
            | .ok q => pySet m q v) := by
    unfold step
    rw [if_neg (by omega), if_neg (by omega), if_pos h1]
  rw [e0, e1, hB, hC]
  cases hg1 : pyGet m (decC w1 : ℤ) with
  | error e => rfl
  | ok p =>
    dsimp only
    cases hg2 : pyGet m p with
    | error e => rfl
    | ok v =>
      dsimp only
      cases hg3 : pyGet m (decB w1 : ℤ) with
      | error e => rfl
      | ok q =>
        dsimp only
        rw [abs_of_nonneg (pyGet_nonneg _ _ _ hm hg2)]

/-- The LOAD_CONST branch of the dispatch. -/
theorem step_LC (w : ℕ) (m : List ℤ) (h5 : decA w = 5) :
    step w m = pySet m (decB w : ℤ) (decC w : ℤ) := by
  unfold step
  rw [if_pos h5]

/-- Masking is stable under first reducing the argument modulo the
field width. -/
theorem maskV20_mod (x : ℤ) : maskV (x % 2 ^ 20) 0xFFFFF = maskV x 0xFFFFF := by
  unfold maskV
  rw [show ((0xFFFFF : ℕ) : ℤ) + 1 = 2 ^ 20 by norm_num, Int.emod_emod_of_dvd x dvd_rfl]

theorem maskV43_mod (x : ℤ) : maskV (x % 2 ^ 43) 0x7FFFFFFFFFF = maskV x 0x7FFFFFFFFFF := by
  unfold maskV
  rw [show ((0x7FFFFFFFFFF : ℕ) : ℤ) + 1 = 2 ^ 43 by norm_num, Int.emod_emod_of_dvd x dvd_rfl]

theorem maskV15_mod (x : ℤ) : maskV (x % 2 ^ 15) 0x7FFF = maskV x 0x7FFF := by
  unfold maskV
  rw [show ((0x7FFF : ℕ) : ℤ) + 1 = 2 ^ 15 by norm_num, Int.emod_emod_of_dvd x dvd_rfl]

/-! ### Assembler error lemmas -/

theorem parseArgs_length (ts : List String) (args : List ℤ) (h : parseArgs ts = some args) :
    args.length = ts.length := by
  induction ts generalizing args with
  | nil =>
    unfold parseArgs at h
    injection h with h
    rw [← h]
    rfl
  | cons t ts ih =>
    unfold parseArgs at h
    cases hp : parseIntToken t with
    | none => rw [hp] at h; exact absurd h (by simp)
    | some v =>
      rw [hp] at h; dsimp only at h
      cases hr : parseArgs ts with
      | none => rw [hr] at h; exact absurd h (by simp)
      | some vs =>
        rw [hr] at h; dsimp only at h
        injection h with h
        rw [← h]
        simp [ih vs hr]

theorem parseArgs_not_none (ts : List String) (args : List ℤ) (h : parseArgs ts = some args) :
    ∀ t ∈ ts, parseIntToken t ≠ none := by
  induction ts generalizing args with
  | nil => intro t ht; exact absurd ht (List.not_mem_nil t)
  | cons a as ih =>
    unfold parseArgs at h
    cases hp : parseIntToken a with
    | none => rw [hp] at h; exact absurd h (by simp)
    | some v =>
      rw [hp] at h; dsimp only at h
      cases hr : parseArgs as with
      | none => rw [hr] at h; exact absurd h (by simp)
      | some vs =>
        intro t ht
        rcases List.mem_cons.mp ht with rfl | ht'
        · rw [hp]; exact Option.some_ne_none v
        · exact ih vs hr t ht'

theorem encodeInstr_LC_err (args : List ℤ) (h : args.length ≠ 2) :
    encodeInstr "LOAD_CONST" args = .error () := by
  unfold encodeInstr
  rw [if_pos rfl]
  match args with
  | [] => rfl
  | [a] => rfl
  | [a, b] => exact absurd rfl h
  | a :: b :: c :: t => rfl

theorem encodeInstr_RM_err (args : List ℤ) (h : args.length ≠ 3) :
    encodeInstr "READ_MEM" args = .error () := by
  unfold encodeInstr
  rw [if_neg (by decide), if_pos rfl]
  match args with
  | [] => rfl
  | [a] => rfl
  | [a, b] => rfl
  | [a, b, c] => exact absurd rfl h
  | a :: b :: c :: d :: t => rfl

theorem encodeInstr_WM_err (args : List ℤ) (h : args.length ≠ 2) :
    encodeInstr "WRITE_MEM" args = .error () := by
  unfold encodeInstr
  rw [if_neg (by decide), if_neg (by decide), if_pos rfl]
  match args with
  | [] => rfl
  | [a] => rfl
  | [a, b] => exact absurd rfl h
  | a :: b :: c :: t => rfl

theorem encodeInstr_ABS_err (args : List ℤ) (h : args.length ≠ 2) :
    encodeInstr "ABS" args = .error () := by
  unfold encodeInstr
  rw [if_neg (by decide), if_neg (by decide), if_neg (by decide), if_pos rfl]
  match args with
  | [] => rfl
  | [a] => rfl
  | [a, b] => exact absurd rfl h
  | a :: b :: c :: t => rfl

theorem encodeInstr_unknown_err (cmd : String) (args : List ℤ)
    (h1 : cmd ≠ "LOAD_CONST") (h2 : cmd ≠ "READ_MEM") (h3 : cmd ≠ "WRITE_MEM")
    (h4 : cmd ≠ "ABS") : encodeInstr cmd args = .error () := by
  unfold encodeInstr
  rw [if_neg h1, if_neg h2, if_neg h3, if_neg h4]

theorem encodeLine_err (line : String) (hb : lineBad line = true) :
    encodeLine line = .error () := by
  unfold encodeLine
  unfold lineBad at hb
  cases htok : tokens line with
  | nil => rfl
  | cons cmd rest =>
    rw [htok] at hb
    dsimp only at hb
    dsimp only
    cases hargs : parseArgs rest with
    | none => rfl
    | some args =>
      dsimp only
      suffices henc : encodeInstr cmd args = .error () by rw [henc]
      replace hb := of_decide_eq_true hb
      have hlen := parseArgs_length rest args hargs
      rcases hb with hcmd | ⟨t, ht, hnone⟩ | ⟨rfl, hne⟩ | ⟨rfl, hne⟩ | ⟨rfl, hne⟩ | ⟨rfl, hne⟩
      · simp only [List.mem_cons, List.not_mem_nil, or_false, not_or] at hcmd
        obtain ⟨h1, h2, h3, h4⟩ := hcmd
        exact encodeInstr_unknown_err cmd args h1 h2 h3 h4
      · exact absurd hnone (parseArgs_not_none rest args hargs t ht)
      · exact encodeInstr_LC_err args (by omega)
      · exact encodeInstr_RM_err args (by omega)
      · exact encodeInstr_WM_err args (by omega)
      · exact encodeInstr_ABS_err args (by omega)

theorem encodeLines_err (lines : List String) (h : ∃ l ∈ lines, lineBad l = true) :
    encodeLines lines = .error () := by
  induction lines with
  | nil =>
    obtain ⟨l, hl, -⟩ := h
    exact absurd hl (List.not_mem_nil l)
  | cons a as ih =>
    obtain ⟨l, hl, hbad⟩ := h
    unfold encodeLines
    rcases List.mem_cons.mp hl with rfl | hl'
    · rw [encodeLine_err l hbad]
    · cases he : encodeLine a with
      | error e => rfl
      | ok item =>
        dsimp only
        rw [ih ⟨l, hl', hbad⟩]

/-! ### The claims -/

/-- C1, counterexample: assembling the three-line program and dumping
`[0, 2)` reports address 0 with value 0, not 42 — the pair `(0, 42)`
appears nowhere in the produced dump. -/
theorem C1_counterexample :
    assembleThenDump ["LOAD_CONST 0 42", "LOAD_CONST 1 0", "WRITE_MEM 1 0"] 0 2 =
      .ok [(0, 0), (1, 0)] ∧
    ((0 : ℕ), (42 : ℤ)) ∉ ([(0, 0), (1, 0)] : List (ℕ × ℤ)) :=
  ⟨rfl, by decide⟩

/-- C1 (amended): assembling the three-line source program
`LOAD_CONST 0 42`, `LOAD_CONST 1 0`, `WRITE_MEM 1 0`, executing the
word stream on a fresh zeroed 1024-cell memory and dumping `[0, 2)`
reports address 0 with value 0 and address 1 with value 0 — the
decoded C field of `LOAD_CONST 0 42` reads bits 40-21 while the
constant 42 sits in the low bits, so 0 is stored, and the final
WRITE_MEM is an address-0-to-address-0 self-write. -/
theorem C1_theorem :
    assembleThenDump ["LOAD_CONST 0 42", "LOAD_CONST 1 0", "WRITE_MEM 1 0"] 0 2 =
      .ok [(0, 0), (1, 0)] := rfl

/-- C2: for every WRITE_MEM or ABS instruction encoded by the
assembler, with any destination and source address argument, the
executor's decoded C field (bits 40-21) equals 0: the encoder wrote the
source address unshifted into bits 19-0. -/
theorem C2_theorem (b c : ℤ) (w : ℕ)
    (h : encodeInstr "WRITE_MEM" [b, c] = .ok w ∨ encodeInstr "ABS" [b, c] = .ok w) :
    decC w = 0 := by
  rcases h with h | h
  · have hw := encWRITE_decomp b c w h
    have hC := maskV20_lt c
    obtain ⟨-, -, h3, -⟩ :=
      dec_fields w 1 (maskV b 0xFFFFF) (maskV c 0xFFFFF) hw (by norm_num) (maskV20_lt b) (by omega)
    rw [h3]
    omega
  · have hw := encABS_decomp b c w h
    have hC := maskV20_lt c
    obtain ⟨-, -, h3, -⟩ :=
      dec_fields w 0 (maskV b 0xFFFFF) (maskV c 0xFFFFF) hw (by norm_num) (maskV20_lt b) (by omega)
    rw [h3]
    omega

/-- C2 witness at WRITE_MEM 5 7. -/
theorem C2_witness : decC 2305854004329971719 = 0 :=
  C2_theorem 5 7 2305854004329971719 (Or.inl rfl)

/-- C3: encoding READ_MEM with in-range arguments and decoding with the
uniform extraction recovers exactly the destination address as B, the
base address as C and the offset as D. -/
theorem C3_theorem (b c d : ℤ) (hb0 : 0 ≤ b) (hb : b < 2 ^ 20) (hc0 : 0 ≤ c) (hc : c < 2 ^ 20)
    (hd0 : 0 ≤ d) (hd : d < 2 ^ 15) (w : ℕ) (h : encodeInstr "READ_MEM" [b, c, d] = .ok w) :
    ((decB w : ℤ) = b) ∧ ((decC w : ℤ) = c) ∧ ((decD w : ℤ) = d) := by
  have hw := encREAD_decomp b c d w h
  have hB := maskV20_lt b
  have hC := maskV20_lt c
  have hD := maskV15_lt d
  obtain ⟨-, h2, h3, h4⟩ :=
    dec_fields w 6 (maskV b 0xFFFFF) (maskV c 0xFFFFF * 2 ^ 21 + maskV d 0x7FFF) hw
      (by norm_num) hB (by omega)
  have hmb : (maskV b 0xFFFFF : ℤ) = b := maskV_eq_of_lt b _ hb0 (by omega)
  have hmc : (maskV c 0xFFFFF : ℤ) = c := maskV_eq_of_lt c _ hc0 (by omega)
  have hmd : (maskV d 0x7FFF : ℤ) = d := maskV_eq_of_lt d _ hd0 (by omega)
  refine ⟨?_, ?_, ?_⟩
  · rw [h2]
    exact hmb
  · rw [h3, show (maskV c 0xFFFFF * 2 ^ 21 + maskV d 0x7FFF) / 2 ^ 21 = maskV c 0xFFFFF by omega]
    exact hmc
  · rw [h4, show (maskV c 0xFFFFF * 2 ^ 21 + maskV d 0x7FFF) % 2 ^ 15 = maskV d 0x7FFF by omega]
    exact hmd

/-- C3 witness at READ_MEM 7 9 11. -/
theorem C3_witness :
    ((decB 13835073448463826955 : ℤ) = 7) ∧ ((decC 13835073448463826955 : ℤ) = 9) ∧
    ((decD 13835073448463826955 : ℤ) = 11) :=
  C3_theorem 7 9 11 (by norm_num) (by norm_num) (by norm_num) (by norm_num) (by norm_num)
    (by norm_num) 13835073448463826955 rfl

/-- C4, counterexample: LOAD_CONST with address argument B = 3 (two
lowest bits set) and constant argument C = 3·2^41 (bits 42 and 41 of
the 43-bit field set) decodes B to exactly 3 — OR-ing the constant's
high bits into B's already-set low bits changes nothing, so the decoded
value is NOT different from the original B. -/
theorem C4_counterexample :
    (3 : ℤ) % 4 = 3 ∧ (0 : ℤ) ≤ 3 ∧ (3 : ℤ) < 2 ^ 20 ∧
    (0 : ℤ) ≤ 3 * 2 ^ 41 ∧ (3 * 2 ^ 41 : ℤ) < 2 ^ 43 ∧ (3 * 2 ^ 41 : ℤ) / 2 ^ 41 = 3 ∧
    encodeInstr "LOAD_CONST" [3, 3 * 2 ^ 41] = .ok 11529221643138236416 ∧
    decB 11529221643138236416 = 3 :=
  ⟨by decide, by decide, by decide, by decide, by decide, by decide, rfl, rfl⟩

/-- C4 (amended): for every LOAD_CONST whose address argument B (below
2^20) has its two lowest bits CLEAR and whose constant argument C
(within the 43-bit field) has bits 42 and 41 set, decoding the B field
of the encoded word yields `B + 3` — a value corrupted by C's high
bits and different from the original B. -/
theorem C4_theorem (b c : ℤ) (hb0 : 0 ≤ b) (hb : b < 2 ^ 20) (hbm : b % 4 = 0)
    (hc0 : 0 ≤ c) (hc : c < 2 ^ 43) (hch : c / 2 ^ 41 = 3) (w : ℕ)
    (h : encodeInstr "LOAD_CONST" [b, c] = .ok w) :
    (decB w : ℤ) = b + 3 ∧ (decB w : ℤ) ≠ b := by
  have hw := encLC_decomp b c w h
  have hB := maskV20_lt b
  have hC := maskV43_lt c
  have hmb : (maskV b 0xFFFFF : ℤ) = b := maskV_eq_of_lt b _ hb0 (by omega)
  have hmc : (maskV c 0x7FFFFFFFFFF : ℤ) = c := maskV_eq_of_lt c _ hc0 (by omega)
  have hq : maskV c 0x7FFFFFFFFFF / 2 ^ 41 = 3 := by omega
  have h4 : maskV b 0xFFFFF = 2 ^ 2 * (maskV b 0xFFFFF / 4) := by omega
  have hlor : maskV b 0xFFFFF ||| 3 = maskV b 0xFFFFF + 3 := by
    conv_lhs => rw [h4]
    rw [lor_split 2 _ 3 (by norm_num)]
    omega
  obtain ⟨-, h2, -, -⟩ :=
    dec_fields w 5 (maskV b 0xFFFFF ||| maskV c 0x7FFFFFFFFFF / 2 ^ 41)
      (maskV c 0x7FFFFFFFFFF % 2 ^ 41) hw (by norm_num) (lor_lt _ _ _ hB (by omega)) (by omega)
  rw [h2, hq, hlor]
  constructor
  · push_cast
    omega
  · push_cast
    omega

/-- C4 witness at B = 4, C = 3·2^41: decoded B is 7. -/
theorem C4_witness :
    ((decB 11529230439231258624 : ℤ) = 4 + 3) ∧ ((decB 11529230439231258624 : ℤ) ≠ 4) :=
  C4_theorem 4 6597069766656 (by decide) (by decide) (by decide) (by decide) (by decide)
    (by decide) 11529230439231258624 rfl

/-- C5: an instruction word whose decoded opcode A is not in
{0, 1, 5, 6} is a silent no-op: memory is returned unchanged, no error
is raised, and execution proceeds to the rest of the stream. -/
theorem C5_theorem (w : ℕ) (m : List ℤ) (ws : List ℕ)
    (h : decA w ≠ 0 ∧ decA w ≠ 1 ∧ decA w ≠ 5 ∧ decA w ≠ 6) :
    step w m = .ok m ∧ execAll (w :: ws) m = execAll ws m := by
  obtain ⟨h0, h1, h5, h6⟩ := h
  have hs := step_noop w m h5 h6 h1 h0
  refine ⟨hs, ?_⟩
  rw [execAll_cons, hs]

/-- C5 witness at the word with opcode A = 2. -/
theorem C5_witness :
    step 4611686018427387904 initMemory = .ok initMemory ∧
    execAll [4611686018427387904] initMemory = execAll [] initMemory :=
  C5_theorem 4611686018427387904 initMemory [] ⟨by decide, by decide, by decide, by decide⟩

/-- C6: executing from the fresh zeroed memory, an instruction one of
whose computed memory indices (the decoded B or C, or a derived index
`memory[C] + D` or `memory[B]`) falls outside `[0, 1024)` halts the run
with a fatal error at that instruction, and no instruction after it is
executed. -/
theorem C6_theorem (ws : List ℕ) (m : List ℤ) (h : execAll ws initMemory = .ok m)
    (w : ℕ) (ws' : List ℕ) (i : ℤ) (hi : i ∈ stepIndices w m)
    (hout : ¬(0 ≤ i ∧ i < 1024)) :
    step w m = .error () ∧ execAll (ws ++ w :: ws') initMemory = .error () := by
  obtain ⟨hlen, hm⟩ := reach_inv ws m h
  have hs := step_err_of_bad_index w m hlen hm i hi hout
  refine ⟨hs, ?_⟩
  rw [execAll_append, h]
  dsimp only
  rw [execAll_cons, hs]

/-- C6 witness: LOAD_CONST to address 2000 halts a run immediately. -/
theorem C6_witness :
    step 11533613092579573760 initMemory = .error () ∧
    execAll ([] ++ 11533613092579573760 :: []) initMemory = .error () :=
  C6_theorem [] initMemory rfl 11533613092579573760 [] 2000 (by decide) (by decide)

/-- C7: for every mnemonic and every argument list of the correct
length, encoding succeeds, and arguments exceeding their field widths
are silently truncated: the word equals the one obtained from the
arguments reduced modulo their field widths (B and the 20-bit C fields
mod 2^20, LOAD_CONST's C mod 2^43, READ_MEM's D mod 2^15). -/
theorem C7_theorem (b c d : ℤ) :
    (encodeInstr "LOAD_CONST" [b, c] = encodeInstr "LOAD_CONST" [b % 2 ^ 20, c % 2 ^ 43] ∧
      ∃ w, encodeInstr "LOAD_CONST" [b, c] = .ok w) ∧
    (encodeInstr "READ_MEM" [b, c, d] = encodeInstr "READ_MEM" [b % 2 ^ 20, c % 2 ^ 20, d % 2 ^ 15] ∧
      ∃ w, encodeInstr "READ_MEM" [b, c, d] = .ok w) ∧
    (encodeInstr "WRITE_MEM" [b, c] = encodeInstr "WRITE_MEM" [b % 2 ^ 20, c % 2 ^ 20] ∧
      ∃ w, encodeInstr "WRITE_MEM" [b, c] = .ok w) ∧
    (encodeInstr "ABS" [b, c] = encodeInstr "ABS" [b % 2 ^ 20, c % 2 ^ 20] ∧
      ∃ w, encodeInstr "ABS" [b, c] = .ok w) := by
  refine ⟨⟨?_, ⟨_, rfl⟩⟩, ⟨?_, ⟨_, rfl⟩⟩, ⟨?_, ⟨_, rfl⟩⟩, ⟨?_, ⟨_, rfl⟩⟩⟩
  · show Except.ok ((((5 : ℕ) &&& 0x7) <<< 61) ||| ((maskV b 0xFFFFF) <<< 41) ||| (maskV c 0x7FFFFFFFFFF)) =
      Except.ok ((((5 : ℕ) &&& 0x7) <<< 61) ||| ((maskV (b % 2 ^ 20) 0xFFFFF) <<< 41) ||| (maskV (c % 2 ^ 43) 0x7FFFFFFFFFF))
    rw [maskV20_mod b, maskV43_mod c]
  · show Except.ok ((((6 : ℕ) &&& 0x7) <<< 61) ||| ((maskV b 0xFFFFF) <<< 41) ||| ((maskV c 0xFFFFF) <<< 21) ||| (maskV d 0x7FFF)) =
      Except.ok ((((6 : ℕ) &&& 0x7) <<< 61) ||| ((maskV (b % 2 ^ 20) 0xFFFFF) <<< 41) ||| ((maskV (c % 2 ^ 20) 0xFFFFF) <<< 21) ||| (maskV (d % 2 ^ 15) 0x7FFF))
    rw [maskV20_mod b, maskV20_mod c, maskV15_mod d]
  · show Except.ok ((((1 : ℕ) &&& 0x7) <<< 61) ||| ((maskV b 0xFFFFF) <<< 41) ||| (maskV c 0xFFFFF)) =
      Except.ok ((((1 : ℕ) &&& 0x7) <<< 61) ||| ((maskV (b % 2 ^ 20) 0xFFFFF) <<< 41) ||| (maskV (c % 2 ^ 20) 0xFFFFF))
    rw [maskV20_mod b, maskV20_mod c]
  · show Except.ok ((((0 : ℕ) &&& 0x7) <<< 61) ||| ((maskV b 0xFFFFF) <<< 41) ||| (maskV c 0xFFFFF)) =
      Except.ok ((((0 : ℕ) &&& 0x7) <<< 61) ||| ((maskV (b % 2 ^ 20) 0xFFFFF) <<< 41) ||| (maskV (c % 2 ^ 20) 0xFFFFF))
    rw [maskV20_mod b, maskV20_mod c]

/-- C8: a source program containing a line with an unknown mnemonic, a
wrong argument count, or a non-integer argument token makes the
assembler fail with an error: neither the binary word stream nor the
trace records are produced (in the source both output files are written
only after the whole loop has succeeded). -/
theorem C8_theorem (lines : List String) (h : ∃ l ∈ lines, lineBad l = true) :
    assemble lines = .error () := by
  unfold assemble
  rw [encodeLines_err lines h]

/-- C8 witness on an unknown mnemonic. -/
theorem C8_witness : assemble ["FOO 1 2"] = .error () :=
  C8_theorem ["FOO 1 2"] ⟨"FOO 1 2", List.mem_singleton.mpr rfl, by decide⟩

/-- C9, counterexample: LOAD_CONST with B = 0 and constant 0 stores 0
into cell 0 — a value EQUAL to the constant, refuting the claim's
"never the constant itself for constants below 2^21" at const = 0. -/
theorem C9_counterexample :
    encodeInstr "LOAD_CONST" [0, 0] = .ok 11529215046068469760 ∧
    step 11529215046068469760 initMemory = .ok initMemory ∧
    initMemory.getD 0 0 = (0 : ℤ) :=
  ⟨rfl, rfl, rfl⟩

/-- C9 (amended): for every LOAD_CONST with destination address
0 ≤ B < 1024 and constant 0 ≤ const < 2^21, executing the encoded word
on any 1024-cell memory stores 0 = (const / 2^21) mod 2^20 into cell B;
the stored value differs from the constant for every constant in
[1, 2^21) (at const = 0 it coincides with the constant). -/
theorem C9_theorem (b c : ℤ) (m : List ℤ) (hlen : m.length = 1024)
    (hb0 : 0 ≤ b) (hb : b < 1024) (hc0 : 0 ≤ c) (hc : c < 2 ^ 21) (w : ℕ)
    (h : encodeInstr "LOAD_CONST" [b, c] = .ok w) :
    step w m = .ok (m.set b.toNat 0) ∧ ((0 : ℤ) = (c / 2 ^ 21) % 2 ^ 20) ∧
    (1 ≤ c → (0 : ℤ) ≠ c) := by
  have hw := encLC_decomp b c w h
  have hB := maskV20_lt b
  have hC := maskV43_lt c
  have hmb : (maskV b 0xFFFFF : ℤ) = b := maskV_eq_of_lt b _ hb0 (by omega)
  have hmc : (maskV c 0x7FFFFFFFFFF : ℤ) = c := maskV_eq_of_lt c _ hc0 (by omega)
  have hq0 : maskV c 0x7FFFFFFFFFF / 2 ^ 41 = 0 := by omega
  have hlor : maskV b 0xFFFFF ||| maskV c 0x7FFFFFFFFFF / 2 ^ 41 = maskV b 0xFFFFF := by
    rw [hq0]
    simp
  obtain ⟨hA, hB2, hC2, -⟩ :=
    dec_fields w 5 (maskV b 0xFFFFF ||| maskV c 0x7FFFFFFFFFF / 2 ^ 41)
      (maskV c 0x7FFFFFFFFFF % 2 ^ 41) hw (by norm_num) (by rw [hlor]; exact hB) (by omega)
  rw [hlor] at hB2
  have hC0 : decC w = 0 := by rw [hC2]; omega
  have hmbn : maskV b 0xFFFFF = b.toNat := by omega
  refine ⟨?_, by omega, by omega⟩
  rw [step_LC w m hA, hB2, hC0]
  rw [pySet_ok m ((maskV b 0xFFFFF : ℕ) : ℤ) (((0 : ℕ) : ℤ)) (by omega) (by omega),
    Int.toNat_natCast, hmbn]
  norm_num

/-- C9 witness at B = 1, const = 5. -/
theorem C9_witness :
    step 11529217245091725317 initMemory = .ok (initMemory.set (1 : ℤ).toNat 0) ∧
    ((0 : ℤ) = (5 / 2 ^ 21) % 2 ^ 20) ∧ (1 ≤ (5 : ℤ) → (0 : ℤ) ≠ 5) :=
  C9_theorem 1 5 initMemory initMemory_length (by decide) (by decide) (by decide) (by decide)
    11529217245091725317 rfl

/-- C10: every memory reachable from the fresh zeroed memory without a
fatal halt has only non-negative cells, the abs transform is the
identity on every such memory, and an ABS instruction produces the same
memory state as a WRITE_MEM instruction decoding to the same B and C
operands. -/
theorem C10_theorem (ws : List ℕ) (m : List ℤ) (h : execAll ws initMemory = .ok m) :
    (∀ x ∈ m, 0 ≤ x) ∧ (∀ x ∈ m, |x| = x) ∧
    (∀ w0 w1 : ℕ, decA w0 = 0 → decA w1 = 1 → decB w0 = decB w1 → decC w0 = decC w1 →
      step w0 m = step w1 m) := by
  obtain ⟨hlen, hm⟩ := reach_inv ws m h
  exact ⟨hm, fun x hx => abs_of_nonneg (hm x hx),
    fun w0 w1 h0 h1 hB hC => step_abs_eq_write w0 w1 m hm h0 h1 hB hC⟩

/-- C10 witness: the ABS word 0 and the WRITE_MEM word 1·2^61 agree on
the fresh memory. -/
theorem C10_witness : step 0 initMemory = step 2305843009213693952 initMemory :=
  (C10_theorem [] initMemory rfl).2.2 0 2305843009213693952 rfl rfl rfl rfl

end Dz4
